import Mathlib

/-!
Verification of the paper-age convenience layer (`src/convenience.rs`) and of
the spec-described subsystems it orchestrates (PassphraseCodec, SymbolEncoder,
PageGeometry, DocumentSynthesizer).  The repository ships only
`src/convenience.rs`; the encryption, page and builder modules are modelled
from the specification, as marked on each definition.  Machine bytes are
modelled as natural numbers; randomness (the salt) is an explicit argument.
-/

namespace PaperAge

/-- Modelled from the spec: the fixed chunk size of the authenticated
streaming cipher ("Encrypts the plaintext in fixed-size chunks").  The spec
treats the value as a tunable named constant; a small value is used so that
concrete envelopes stay small. -/
def CHUNK_SIZE : Nat := 4

/-- Modelled from the spec: the work-factor of the password-based key
derivation ("selects a work-factor appropriate for interactive use (tunable
constant, not derived from input)"). -/
def WORK_FACTOR : Nat := 18

/-- Injective encoding of a list of naturals into a natural, used to model
collision-free message authentication and key derivation over byte strings. -/
def encodeList : List Nat → Nat
  | [] => 0
  | a :: l => Nat.pair a (encodeList l) + 1

/-- Modelled from the spec: key derivation ("Derives a symmetric key via a
memory-hard password-based key derivation function using (passphrase, salt,
work-factor)").  Modelled as an injective pairing of the three inputs. -/
def deriveKey (pass : List Nat) (salt wf : Nat) : Nat :=
  Nat.pair (encodeList pass) (Nat.pair salt wf)

/-- Modelled from the spec: the keystream of the streaming cipher; the value
masking byte `j` of chunk `i` under `key` ("a nonce/counter derived from chunk
index"). -/
def keystream (key i j : Nat) : Nat :=
  Nat.pair key (Nat.pair i j)

/-- Masks (or unmasks: XOR is an involution) the bytes of one chunk with the
keystream, starting at byte offset `j` of chunk `i`. -/
def maskFrom (key i : Nat) : Nat → List Nat → List Nat
  | _, [] => []
  | j, x :: xs => (x ^^^ keystream key i j) :: maskFrom key i (j + 1) xs

/-- Modelled from the spec: the per-chunk authentication tag; binds the key,
the chunk index ("each chunk's authentication tag also binds its position")
and the chunk ciphertext.  Modelled as an injective pairing. -/
def chunkTag (key i : Nat) (c : List Nat) : Nat :=
  Nat.pair key (Nat.pair i (encodeList c))

/-- Modelled from the spec: the header integrity tag ("header:
KeyDerivationParameters + integrity tag placement"); binds the key and the
self-describing header fields (salt, work-factor, plaintext length). -/
def headerTag (key salt wf n : Nat) : Nat :=
  Nat.pair key (Nat.pair salt (Nat.pair wf n))

/-- Splits a plaintext into fixed-size chunks of `CHUNK_SIZE = 4` bytes; the
empty plaintext yields one empty chunk ("a single (possibly empty-payload)
authenticated chunk").  Structural recursion with the chunk size unrolled into
the pattern so that the kernel can evaluate it. -/
def chunkify : List Nat → List (List Nat)
  | a :: b :: c :: d :: e :: rest => [a, b, c, d] :: chunkify (e :: rest)
  | p => [p]

/-- The chunk lengths determined by a plaintext length, as the decryptor
recomputes them from the header. -/
def chunkSizes : Nat → List Nat
  | 0 => [0]
  | 1 => [1]
  | 2 => [2]
  | 3 => [3]
  | 4 => [4]
  | n + 5 => CHUNK_SIZE :: chunkSizes (n + 1)

/-- Encrypts the list of chunks starting at chunk index `i`: each chunk is
masked with the keystream and followed by its authentication tag. -/
def encryptChunks (key : Nat) : Nat → List (List Nat) → List Nat
  | _, [] => []
  | i, c :: cs =>
    let ec := maskFrom key i 0 c
    ec ++ chunkTag key i ec :: encryptChunks key (i + 1) cs

/-- Modelled from the spec: PassphraseCodec.Encrypt ("Emits a self-describing
header (algorithm identifiers, salt, work-factor) immediately followed by the
encrypted chunks").  The envelope is `salt, work-factor, plaintext length,
header tag` followed by the authenticated chunks.  The fresh random salt is an
explicit argument. -/
def encrypt (salt : Nat) (p pass : List Nat) : List Nat :=
  let key := deriveKey pass salt WORK_FACTOR
  salt :: WORK_FACTOR :: p.length ::
    headerTag key salt WORK_FACTOR p.length :: encryptChunks key 0 (chunkify p)

/-- Verifies and decrypts the chunk stream `rest` against the expected chunk
lengths, failing on any tag mismatch or length mismatch without releasing any
partially decrypted bytes. -/
def decryptBody (key : Nat) : Nat → List Nat → List Nat → Option (List Nat)
  | _, [], rest => if rest.isEmpty then some [] else none
  | i, s :: ss, rest =>
    if (rest.take s).length = s then
      match rest.drop s with
      | [] => none
      | t :: rest2 =>
        if chunkTag key i (rest.take s) = t then
          match decryptBody key (i + 1) ss rest2 with
          | some ps => some (maskFrom key i 0 (rest.take s) ++ ps)
          | none => none
        else none
    else none

/-- Modelled from the spec: PassphraseCodec.Decrypt ("parses the header,
re-derives the key with the embedded salt/work-factor, verifies and decrypts
chunks in order, fails ... on any tag mismatch without releasing
partially-decrypted bytes"). -/
def decrypt (env pass : List Nat) : Option (List Nat) :=
  match env with
  | salt :: wf :: n :: hTag :: body =>
    let key := deriveKey pass salt wf
    if headerTag key salt wf n = hTag then decryptBody key 0 (chunkSizes n) body
    else none
  | _ => none

/-- Flips bit `j` of element `i` of a byte sequence (identity when `i` is out
of range). -/
def flipBit (l : List Nat) (i j : Nat) : List Nat :=
  l.set i (l.getD i 0 ^^^ 2 ^ j)

/-- Modelled from the spec: the encryption entry point invoked by
`create_pdf` ("Returns the plaintext length alongside the envelope ... and the
envelope bytes").  In this pure model the input is already a byte list, so the
read-failure case of `EncryptionError` cannot arise. -/
def encrypt_plaintext (data pass : List Nat) (salt : Nat) :
    Except String (Nat × List Nat) :=
  Except.ok (data.length, encrypt salt data pass)

example : decrypt (encrypt 3 [10, 20, 30, 40, 50] [7, 8]) [7, 8] =
    some [10, 20, 30, 40, 50] := by decide

example : decrypt (encrypt 3 [] [7]) [7] = some [] := by decide

example : decrypt (flipBit (encrypt 3 [10, 20] [7]) 4 2) [7] = none := by
  decide

/-- Modelled from the spec: the closed set of error-correction levels
("model as closed tagged variants"). -/
inductive ECLevel
  | L
  | M
  | Q
  | H
deriving DecidableEq

/-- Modelled from the spec: the precomputed byte capacities of the supported
symbol size classes at each error-correction level ("encode capacity tables
as static data indexed by the variant"), smallest class first.  Values are
the standard byte-mode capacities of the first ten 2-D barcode versions. -/
def capacityTable : ECLevel → List Nat
  | .L => [17, 32, 53, 78, 106, 134, 154, 192, 230, 271]
  | .M => [14, 26, 42, 62, 84, 106, 122, 152, 180, 213]
  | .Q => [11, 20, 32, 46, 60, 74, 86, 108, 130, 151]
  | .H => [7, 14, 24, 34, 44, 58, 64, 84, 98, 119]

/-- The byte capacity of the largest supported size class (the capacity table
is non-decreasing, so this is the table maximum). -/
def maxCapacity (ec : ECLevel) : Nat :=
  (capacityTable ec).foldr max 0

/-- Index of the first (smallest) size class in `caps` whose capacity is at
least `len`, if any ("Iterates supported size classes from smallest to
largest"). -/
def findClass (len : Nat) : List Nat → Option Nat
  | [] => none
  | c :: cs => if len ≤ c then some 0 else (findClass len cs).map (· + 1)

/-- Modelled from the spec: SymbolEncoder failure ("fails with
CapacityExceeded \x7b payload_len, max_capacity \x7d"). -/
inductive SymbolError
  | CapacityExceeded (payload_len max_capacity : Nat)
deriving DecidableEq

/-- Modelled from the spec: the human-readable message of a symbol-encoding
failure; includes payload length and maximum capacity ("The error message
must include enough detail (payload length vs. capacity)"). -/
def SymbolError.message : SymbolError → String
  | .CapacityExceeded n m =>
    "payload length " ++ toString n ++ " exceeds maximum capacity " ++ toString m

/-- A bounded deterministic digest of the payload, used to populate the
module pattern of the model grid. -/
def gridSeed (payload : List Nat) : Nat :=
  payload.foldr (fun a r => Nat.pair (a % 256) r % 65536) 0

/-- Modelled from the spec: the module grid ("the black/white cell pattern")
for size class `cls`; a square of side `21 + 4·cls` modules whose cells are a
deterministic function of the payload. -/
def moduleGrid (cls : Nat) (payload : List Nat) : List (List Bool) :=
  let n := 21 + 4 * cls
  let e := gridSeed payload
  (List.range n).map fun r => (List.range n).map fun c =>
    decide ((e + r * n + c) % 2 = 1)

/-- Modelled from the spec: the symbol produced by the encoder
(SymbolSpec/ModuleGrid: version/size class plus the module grid). -/
structure Symbol where
  sizeClass : Nat
  grid : List (List Bool)
deriving DecidableEq

/-- Modelled from the spec: SymbolEncoder.Encode — picks the first size class
whose byte capacity is at least the payload length and produces the module
grid, or fails with `CapacityExceeded` carrying the payload length and the
maximum capacity. -/
def encode (ec : ECLevel) (p : List Nat) : Except SymbolError Symbol :=
  match findClass p.length (capacityTable ec) with
  | some cls => Except.ok ⟨cls, moduleGrid cls p⟩
  | none => Except.error (SymbolError.CapacityExceeded p.length (maxCapacity ec))

/-- Modelled from the spec: page size identifiers; the supported set is a
static lookup table, and unsupported identifiers exist ("Fails with
UnknownPageSize if an unsupported identifier is requested"). -/
abbrev PageSize := String

/-- Modelled from the spec: the standard default page size (`PageSize::A4` in
the source). -/
def PageSize.A4 : PageSize := "a4"

/-- Modelled from the spec: the other supported page size (`PageSize::Letter`
in the source). -/
def PageSize.Letter : PageSize := "letter"

/-- Modelled from the spec: PageGeometry — static lookup from page identifier
to physical dimensions in millimetres; pure data, no behaviour beyond
lookup. -/
def pageDimensions (id : PageSize) : Option (Nat × Nat) :=
  if id = PageSize.A4 then some (210, 297)
  else if id = PageSize.Letter then some (216, 279)
  else none

/-- Modelled from the spec: the document handle produced by
DocumentSynthesizer.Initialize. -/
structure Document where
  title : String
  page_size : PageSize
  width : Nat
  height : Nat
deriving DecidableEq

/-- Modelled from the spec: DocumentSynthesizer.Initialize
(`builder::Document::new` in the source) — validates the page size against
PageGeometry and fails if it is unknown.  The metadata-embedding failure the
spec also allows is not modelled. -/
def Document.new (title : String) (page_size : PageSize) :
    Except String Document :=
  match pageDimensions page_size with
  | some (w, h) => Except.ok ⟨title, page_size, w, h⟩
  | none => Except.error "unknown page size"

/-- Modelled from the spec: the error-correction level used by the document
synthesizer ("implementers should pick a conservative default"); the highest
level is used. -/
def DEFAULT_EC_LEVEL : ECLevel := ECLevel.H

/-- The bytes of a string, modelling Rust string-to-byte conversions. -/
def strBytes (s : String) : List Nat :=
  s.data.map Char.toNat

/-- Modelled from the spec: serialization of the finished page layout
("Serializes the complete page description to a document byte stream"); a
fixed magic prefix followed by title, page dimensions, the optional notes
label, the debug-grid flag and the symbol modules. -/
def serializeDocument (d : Document) (grid : Bool) (notes_label : String)
    (skip_notes_line : Bool) (sym : Symbol) : List Nat :=
  [0x25, 0x50, 0x44, 0x46] ++ strBytes d.title ++ [d.width, d.height] ++
    (if skip_notes_line then [] else strBytes notes_label) ++
    (if grid then [1] else [0]) ++
    (sym.grid.map fun row => row.map fun b => if b then 1 else 0).flatten

/-- Modelled from the spec: DocumentSynthesizer.Render
(`Document::create_pdf` in the source) — encodes the ciphertext envelope into
a symbol, propagating `CapacityExceeded` as the failure message, and
serializes the page; no partial output is returned on failure. -/
def Document.create_pdf (d : Document) (grid : Bool) (notes_label : String)
    (skip_notes_line : Bool) (encrypted : List Nat) :
    Except String (List Nat) :=
  match encode DEFAULT_EC_LEVEL encrypted with
  | Except.error e => Except.error e.message
  | Except.ok sym =>
    Except.ok (serializeDocument d grid notes_label skip_notes_line sym)

/-- Errors that can occur during PDF generation (`PaperAgeError` in
`src/convenience.rs`). -/
inductive PaperAgeError
  | Encryption (msg : String)
  | DocumentInit (msg : String)
  | PdfCreation (msg : String)
deriving DecidableEq

/-- The `Display` rendering of `PaperAgeError`
(`impl fmt::Display for PaperAgeError` in `src/convenience.rs`). -/
def PaperAgeError.display : PaperAgeError → String
  | .Encryption msg => "Encryption failed: " ++ msg
  | .DocumentInit msg => "Document initialization failed: " ++ msg
  | .PdfCreation msg => "PDF creation failed: " ++ msg

/-- The end-to-end pipeline `create_pdf` of `src/convenience.rs`: resolves
the optional arguments to their defaults, encrypts the plaintext, initializes
the document and renders the PDF, mapping each stage failure to its
`PaperAgeError` variant.  The salt consumed by encryption is an explicit
argument. -/
def create_pdf (title : String) (data : List Nat) (passphrase : String)
    (salt : Nat) (notes_label : Option String) (skip_notes_line : Option Bool)
    (page_size : Option PageSize) (grid : Option Bool) :
    Except PaperAgeError (List Nat) :=
  let notes_label := notes_label.getD "Passphrase:"
  let skip_notes_line := skip_notes_line.getD false
  let page_size := page_size.getD PageSize.A4
  let grid := grid.getD false
  match encrypt_plaintext data (strBytes passphrase) salt with
  | Except.error e => Except.error (PaperAgeError.Encryption e)
  | Except.ok (_plaintext_len, encrypted) =>
    match Document.new title page_size with
    | Except.error e => Except.error (PaperAgeError.DocumentInit e)
    | Except.ok pdf =>
      match pdf.create_pdf grid notes_label skip_notes_line encrypted with
      | Except.error e => Except.error (PaperAgeError.PdfCreation e)
      | Except.ok bytes => Except.ok bytes

/-- The pipeline stages of `create_pdf`, in the order the source invokes
them. -/
inductive Stage
  | encrypt
  | docInit
  | pdfCreate
deriving DecidableEq

/-- The pipeline `create_pdf` instrumented with the list of stages it
invokes, in invocation order; the result component follows the source
line by line. -/
def create_pdfTrace (title : String) (data : List Nat) (passphrase : String)
    (salt : Nat) (notes_label : Option String) (skip_notes_line : Option Bool)
    (page_size : Option PageSize) (grid : Option Bool) :
    Except PaperAgeError (List Nat) × List Stage :=
  let notes_label := notes_label.getD "Passphrase:"
  let skip_notes_line := skip_notes_line.getD false
  let page_size := page_size.getD PageSize.A4
  let grid := grid.getD false
  match encrypt_plaintext data (strBytes passphrase) salt with
  | Except.error e => (Except.error (PaperAgeError.Encryption e), [Stage.encrypt])
  | Except.ok (_plaintext_len, encrypted) =>
    match Document.new title page_size with
    | Except.error e =>
      (Except.error (PaperAgeError.DocumentInit e), [Stage.encrypt, Stage.docInit])
    | Except.ok pdf =>
      match pdf.create_pdf grid notes_label skip_notes_line encrypted with
      | Except.error e =>
        (Except.error (PaperAgeError.PdfCreation e),
          [Stage.encrypt, Stage.docInit, Stage.pdfCreate])
      | Except.ok bytes =>
        (Except.ok bytes, [Stage.encrypt, Stage.docInit, Stage.pdfCreate])

/-! Helper lemmas about the passphrase codec. -/

theorem maskFrom_length (key i : Nat) : ∀ (j : Nat) (c : List Nat),
    (maskFrom key i j c).length = c.length
  | _, [] => rfl
  | j, _ :: xs => by simp [maskFrom, maskFrom_length key i (j + 1) xs]

theorem maskFrom_maskFrom (key i : Nat) : ∀ (j : Nat) (c : List Nat),
    maskFrom key i j (maskFrom key i j c) = c
  | _, [] => rfl
  | j, x :: xs => by
    simp [maskFrom, maskFrom_maskFrom key i (j + 1) xs, Nat.xor_assoc,
      Nat.xor_self, Nat.xor_zero]

theorem encodeList_injective : Function.Injective encodeList := by
  intro l
  induction l with
  | nil => intro m h; cases m with
    | nil => rfl
    | cons b m => simp [encodeList] at h
  | cons a l ih =>
    intro m h
    cases m with
    | nil => simp [encodeList] at h
    | cons b m =>
      simp only [encodeList, Nat.add_right_cancel_iff, Nat.pair_eq_pair] at h
      rw [h.1, ih h.2]

theorem chunkTag_eq_iff (k i : Nat) (c : List Nat) (k2 i2 : Nat) (c2 : List Nat) :
    chunkTag k i c = chunkTag k2 i2 c2 ↔ k = k2 ∧ i = i2 ∧ c = c2 := by
  constructor
  · intro h
    simp only [chunkTag, Nat.pair_eq_pair] at h
    exact ⟨h.1, h.2.1, encodeList_injective h.2.2⟩
  · rintro ⟨rfl, rfl, rfl⟩; rfl

theorem headerTag_eq_iff (k s w n k2 s2 w2 n2 : Nat) :
    headerTag k s w n = headerTag k2 s2 w2 n2 ↔
      k = k2 ∧ s = s2 ∧ w = w2 ∧ n = n2 := by
  simp [headerTag, Nat.pair_eq_pair, and_assoc]

theorem xor_two_pow_ne (x j : Nat) : x ^^^ 2 ^ j ≠ x := by
  intro h
  have h2 : x ^^^ (x ^^^ 2 ^ j) = x ^^^ x := by rw [h]
  rw [← Nat.xor_assoc, Nat.xor_self, Nat.zero_xor] at h2
  have h3 := Nat.two_pow_pos j
  omega

theorem chunkify_flatten : ∀ (p : List Nat), (chunkify p).flatten = p
  | [] => rfl
  | [_] => rfl
  | [_, _] => rfl
  | [_, _, _] => rfl
  | [_, _, _, _] => rfl
  | a :: b :: c :: d :: e :: rest => by
    simp [chunkify, chunkify_flatten (e :: rest)]

theorem chunkify_map_length : ∀ (p : List Nat),
    (chunkify p).map List.length = chunkSizes p.length
  | [] => rfl
  | [_] => rfl
  | [_, _] => rfl
  | [_, _, _] => rfl
  | [_, _, _, _] => rfl
  | a :: b :: c :: d :: e :: rest => by
    show [a, b, c, d].length :: (chunkify (e :: rest)).map List.length =
      CHUNK_SIZE :: chunkSizes (e :: rest).length
    rw [chunkify_map_length (e :: rest)]
    rfl

theorem decryptBody_encryptChunks (key : Nat) : ∀ (cs : List (List Nat)) (i : Nat),
    decryptBody key i (cs.map List.length) (encryptChunks key i cs) =
      some cs.flatten
  | [], _ => rfl
  | c :: cs, i => by
    show decryptBody key i (c.length :: cs.map List.length)
      (maskFrom key i 0 c ++ chunkTag key i (maskFrom key i 0 c) ::
        encryptChunks key (i + 1) cs) = some (c ++ cs.flatten)
    have hlen : (maskFrom key i 0 c).length = c.length := maskFrom_length key i 0 c
    simp only [decryptBody, ← hlen, List.take_left, List.drop_left, if_pos rfl,
      if_true, decryptBody_encryptChunks key cs (i + 1),
      maskFrom_maskFrom key i 0 c]

/-- C2: for every plaintext byte sequence `p` (including the empty sequence),
every passphrase `pass` and every salt, decrypting the envelope produced by
encrypting `p` under `pass` with the same passphrase returns exactly `p`. -/
theorem decrypt_encrypt (salt : Nat) (p pass : List Nat) :
    decrypt (encrypt salt p pass) pass = some p := by
  show decrypt (_ :: _ :: _ :: _ :: _) pass = some p
  simp only [decrypt, if_pos rfl, ← chunkify_map_length,
    decryptBody_encryptChunks, chunkify_flatten]
  simp

/-! Helper lemmas about single-bit modifications of an envelope. -/

theorem flipBit_cons_zero (a : Nat) (l : List Nat) (j : Nat) :
    flipBit (a :: l) 0 j = (a ^^^ 2 ^ j) :: l := by
  simp [flipBit]

theorem flipBit_cons_succ (a : Nat) (l : List Nat) (k j : Nat) :
    flipBit (a :: l) (k + 1) j = a :: flipBit l k j := by
  simp [flipBit]

theorem flipBit_length (l : List Nat) (k j : Nat) :
    (flipBit l k j).length = l.length := by
  simp [flipBit]

theorem flipBit_append_left : ∀ (l r : List Nat) (k j : Nat), k < l.length →
    flipBit (l ++ r) k j = flipBit l k j ++ r
  | [], _, k, _ => by intro h; simp at h
  | a :: l, r, 0, j => by intro _; simp [flipBit]
  | a :: l, r, k + 1, j => by
    intro h
    rw [List.cons_append, flipBit_cons_succ, flipBit_cons_succ,
      flipBit_append_left l r k j (by simpa using h), List.cons_append]

theorem flipBit_append_right : ∀ (l r : List Nat) (m j : Nat),
    flipBit (l ++ r) (l.length + m) j = l ++ flipBit r m j
  | [], r, m, j => by simp
  | a :: l, r, m, j => by
    have harith : (a :: l).length + m = (l.length + m) + 1 := by
      simp; omega
    rw [List.cons_append, harith, flipBit_cons_succ,
      flipBit_append_right l r m j, List.cons_append]

theorem flipBit_ne (l : List Nat) (k j : Nat) (h : k < l.length) :
    flipBit l k j ≠ l := by
  intro heq
  have h2 : (flipBit l k j).getD k 0 = l.getD k 0 := by rw [heq]
  have hlt : k < (l.set k (l.getD k 0 ^^^ 2 ^ j)).length := by simpa using h
  have h3 : (flipBit l k j).getD k 0 = l.getD k 0 ^^^ 2 ^ j := by
    show (l.set k (l.getD k 0 ^^^ 2 ^ j)).getD k 0 = l.getD k 0 ^^^ 2 ^ j
    rw [List.getD_eq_getElem _ 0 hlt]
    exact List.getElem_set_self hlt
  rw [h3] at h2
  exact xor_two_pow_ne _ j h2

theorem decryptBody_flip (key : Nat) : ∀ (cs : List (List Nat)) (i k j : Nat),
    k < (encryptChunks key i cs).length →
    decryptBody key i (cs.map List.length)
      (flipBit (encryptChunks key i cs) k j) = none
  | [], i, k, _ => by intro h; simp [encryptChunks] at h
  | c :: cs, i, k, j => by
    intro h
    have hec : encryptChunks key i (c :: cs) =
        maskFrom key i 0 c ++ chunkTag key i (maskFrom key i 0 c) ::
          encryptChunks key (i + 1) cs := rfl
    generalize hE : maskFrom key i 0 c = ec at hec
    generalize hT : chunkTag key i ec = tag at hec
    generalize hR : encryptChunks key (i + 1) cs = rest at hec
    have hlen : ec.length = c.length := by rw [← hE]; exact maskFrom_length key i 0 c
    have hbound : k < ec.length + (rest.length + 1) := by
      rw [hec] at h; simpa using h
    rw [hec]
    show decryptBody key i (c.length :: cs.map List.length)
      (flipBit (ec ++ tag :: rest) k j) = none
    rcases Nat.lt_trichotomy k ec.length with hk | hk | hk
    · rw [flipBit_append_left ec (tag :: rest) k j hk]
      have hl2 : (flipBit ec k j).length = c.length := by
        rw [flipBit_length]; exact hlen
      simp only [decryptBody, ← hl2, List.take_left, List.drop_left]
      rw [if_pos trivial, if_neg]
      intro hcon
      rw [← hT, chunkTag_eq_iff] at hcon
      exact flipBit_ne ec k j hk hcon.2.2
    · subst hk
      have h0 : flipBit (ec ++ tag :: rest) ec.length j =
          ec ++ (tag ^^^ 2 ^ j) :: rest := by
        have := flipBit_append_right ec (tag :: rest) 0 j
        simpa [flipBit_cons_zero] using this
      rw [h0]
      simp only [decryptBody, ← hlen, List.take_left, List.drop_left]
      rw [if_pos trivial, if_neg]
      intro hcon
      rw [hT] at hcon
      exact (xor_two_pow_ne tag j) hcon.symm
    · obtain ⟨m, rfl⟩ : ∃ m, k = ec.length + (m + 1) := by
        refine ⟨k - ec.length - 1, ?_⟩; omega
      have hm : m < rest.length := by omega
      rw [flipBit_append_right ec (tag :: rest) (m + 1) j, flipBit_cons_succ]
      simp only [decryptBody, ← hlen, List.take_left, List.drop_left]
      rw [if_pos trivial, if_pos hT, ← hR,
        decryptBody_flip key cs (i + 1) m j (by rw [hR]; exact hm)]

/-- C3: flipping any single bit of an envelope produced by `encrypt` makes
`decrypt` under the correct passphrase fail (return `none`), releasing no
plaintext bytes and never returning altered plaintext. -/
theorem decrypt_flipBit (salt : Nat) (p pass : List Nat) (i j : Nat)
    (h : i < (encrypt salt p pass).length) :
    decrypt (flipBit (encrypt salt p pass) i j) pass = none := by
  have henv : encrypt salt p pass =
      salt :: WORK_FACTOR :: p.length ::
        headerTag (deriveKey pass salt WORK_FACTOR) salt WORK_FACTOR p.length ::
        encryptChunks (deriveKey pass salt WORK_FACTOR) 0 (chunkify p) := rfl
  generalize hK : deriveKey pass salt WORK_FACTOR = key at henv
  generalize hB : encryptChunks key 0 (chunkify p) = body at henv
  rw [henv] at h ⊢
  match i with
  | 0 =>
    rw [flipBit_cons_zero]
    simp only [decrypt]
    rw [if_neg]
    intro hcon
    rw [headerTag_eq_iff] at hcon
    exact xor_two_pow_ne salt j hcon.2.1
  | 1 =>
    rw [flipBit_cons_succ, flipBit_cons_zero]
    simp only [decrypt]
    rw [if_neg]
    intro hcon
    rw [headerTag_eq_iff] at hcon
    exact xor_two_pow_ne WORK_FACTOR j hcon.2.2.1
  | 2 =>
    rw [flipBit_cons_succ, flipBit_cons_succ, flipBit_cons_zero]
    simp only [decrypt]
    rw [if_neg]
    intro hcon
    rw [headerTag_eq_iff] at hcon
    exact xor_two_pow_ne p.length j hcon.2.2.2
  | 3 =>
    rw [flipBit_cons_succ, flipBit_cons_succ, flipBit_cons_succ,
      flipBit_cons_zero]
    simp only [decrypt]
    rw [hK, if_neg]
    exact fun hcon => xor_two_pow_ne _ j hcon.symm
  | k + 4 =>
    rw [flipBit_cons_succ, flipBit_cons_succ, flipBit_cons_succ,
      flipBit_cons_succ]
    simp only [decrypt]
    rw [hK, if_pos rfl, ← chunkify_map_length, ← hB,
      decryptBody_flip key (chunkify p) 0 k j (by rw [hB]; simpa using h)]

/-! Helper lemmas about the symbol encoder. -/

instance instDecidableEqExceptPA {ε α : Type} [DecidableEq ε] [DecidableEq α] :
    DecidableEq (Except ε α) := fun x y =>
  match x, y with
  | .ok a, .ok b =>
    if h : a = b then isTrue (by rw [h]) else isFalse (by simp [h])
  | .error a, .error b =>
    if h : a = b then isTrue (by rw [h]) else isFalse (by simp [h])
  | .ok _, .error _ => isFalse (by simp)
  | .error _, .ok _ => isFalse (by simp)

theorem encode_ok_sizeClass (ec : ECLevel) (p : List Nat) (s : Symbol)
    (h : encode ec p = Except.ok s) :
    findClass p.length (capacityTable ec) = some s.sizeClass := by
  unfold encode at h
  cases hfc : findClass p.length (capacityTable ec) with
  | none => rw [hfc] at h; exact absurd h (by simp)
  | some cls =>
    rw [hfc] at h
    cases h
    rfl

theorem findClass_spec : ∀ (caps : List Nat) (len v : Nat),
    findClass len caps = some v →
    len ≤ caps.getD v 0 ∧ ∀ u, u < v → caps.getD u 0 < len
  | [], _, _ => by intro h; simp [findClass] at h
  | c :: caps, len, v => by
    intro h
    simp only [findClass] at h
    by_cases hc : len ≤ c
    · rw [if_pos hc] at h
      cases h
      exact ⟨by simpa using hc, fun u hu => absurd hu (Nat.not_lt_zero u)⟩
    · rw [if_neg hc] at h
      cases hfc : findClass len caps with
      | none => rw [hfc] at h; simp at h
      | some v2 =>
        rw [hfc] at h
        simp only [Option.map_some'] at h
        obtain ⟨hle, hlt⟩ := findClass_spec caps len v2 hfc
        cases h
        refine ⟨by simpa using hle, ?_⟩
        intro u hu
        cases u with
        | zero => simpa using Nat.lt_of_not_le hc
        | succ u2 =>
          have := hlt u2 (by omega)
          simpa using this

theorem findClass_mono : ∀ (caps : List Nat) (la lb va vb : Nat), la ≤ lb →
    findClass la caps = some va → findClass lb caps = some vb → va ≤ vb
  | [], _, _, _, _ => by intro _ h; simp [findClass] at h
  | c :: caps, la, lb, va, vb => by
    intro hab ha hb
    simp only [findClass] at ha hb
    by_cases hla : la ≤ c
    · rw [if_pos hla] at ha
      cases ha
      exact Nat.zero_le vb
    · have hlb : ¬ lb ≤ c := fun h2 => hla (le_trans hab h2)
      rw [if_neg hla] at ha
      rw [if_neg hlb] at hb
      cases hfa : findClass la caps with
      | none => rw [hfa] at ha; simp at ha
      | some va2 =>
        cases hfb : findClass lb caps with
        | none => rw [hfb] at hb; simp at hb
        | some vb2 =>
          rw [hfa] at ha
          rw [hfb] at hb
          simp only [Option.map_some'] at ha hb
          cases ha
          cases hb
          exact Nat.succ_le_succ (findClass_mono caps la lb va2 vb2 hab hfa hfb)

theorem findClass_none_of_gt : ∀ (caps : List Nat) (len : Nat),
    (∀ x ∈ caps, x < len) → findClass len caps = none
  | [], _ => fun _ => rfl
  | c :: caps, len => by
    intro h
    simp only [findClass]
    rw [if_neg (by have := h c (by simp); omega),
      findClass_none_of_gt caps len (fun x hx => h x (by simp [hx]))]
    rfl

theorem le_foldr_max : ∀ (l : List Nat) (x : Nat), x ∈ l → x ≤ l.foldr max 0
  | [], x => by simp
  | a :: l, x => by
    intro hx
    rcases List.mem_cons.mp hx with rfl | hx2
    · exact le_max_left _ _
    · exact le_trans (le_foldr_max l x hx2) (le_max_right _ _)

/-- C7: for a fixed payload and error-correction level, `encode` always
returns an identical module grid: two invocations on equal inputs produce
equal outputs.  `encode` is a pure function with no randomness input, so
determinism holds by construction. -/
theorem encode_deterministic (ec : ECLevel) (p q : List Nat) (h : p = q) :
    encode ec p = encode ec q := by
  rw [h]

/-- Witness for `encode_deterministic` at a concrete payload. -/
theorem encode_deterministic_witness :
    ([3, 1, 4] : List Nat) = [3, 1, 4] ∧
      encode ECLevel.M [3, 1, 4] = encode ECLevel.M [3, 1, 4] :=
  ⟨rfl, encode_deterministic ECLevel.M [3, 1, 4] [3, 1, 4] rfl⟩

/-- C8: if payload `a` is shorter than payload `b` and both encode
successfully at the same error-correction level, the size class chosen for
`a` is at most the size class chosen for `b`; moreover capacity is a
non-decreasing function of size class, and the encoder picks the smallest
size class whose capacity is at least the payload length. -/
theorem encode_monotone (ec : ECLevel) (a b : List Nat) (sa sb : Symbol)
    (hlen : a.length < b.length)
    (ha : encode ec a = Except.ok sa) (hb : encode ec b = Except.ok sb) :
    sa.sizeClass ≤ sb.sizeClass ∧
      (capacityTable ec).Chain' (· ≤ ·) ∧
      a.length ≤ (capacityTable ec).getD sa.sizeClass 0 ∧
      ∀ u, u < sa.sizeClass → (capacityTable ec).getD u 0 < a.length := by
  have ha2 := encode_ok_sizeClass ec a sa ha
  have hb2 := encode_ok_sizeClass ec b sb hb
  refine ⟨findClass_mono _ _ _ _ _ (le_of_lt hlen) ha2 hb2, ?_,
    (findClass_spec _ _ _ ha2).1, (findClass_spec _ _ _ ha2).2⟩
  cases ec <;>
    simp [capacityTable, List.chain'_cons, List.chain'_singleton]

/-- Witness for `encode_monotone` at concrete payloads of lengths 1 and
20. -/
theorem encode_monotone_witness :
    ([1] : List Nat).length < (List.replicate 20 (0 : Nat)).length ∧
      ((Symbol.mk 0 (moduleGrid 0 [1])).sizeClass ≤
          (Symbol.mk 1 (moduleGrid 1 (List.replicate 20 (0 : Nat)))).sizeClass ∧
        (capacityTable ECLevel.L).Chain' (· ≤ ·) ∧
        ([1] : List Nat).length ≤
          (capacityTable ECLevel.L).getD (Symbol.mk 0 (moduleGrid 0 [1])).sizeClass 0 ∧
        ∀ u, u < (Symbol.mk 0 (moduleGrid 0 [1])).sizeClass →
          (capacityTable ECLevel.L).getD u 0 < ([1] : List Nat).length) :=
  ⟨by decide,
    encode_monotone ECLevel.L [1] (List.replicate 20 0) _ _ (by decide) rfl rfl⟩

/-- C4: a payload longer than the capacity of the largest supported size
class makes the encoder fail with `CapacityExceeded` carrying the payload
length and the maximum capacity (never truncating or re-encoding), and the
document-synthesis stage of the pipeline surfaces the failure to the caller
as `PdfCreation`. -/
theorem encode_capacity_exceeded :
    (∀ (ec : ECLevel) (p : List Nat), maxCapacity ec < p.length →
        encode ec p = Except.error
          (SymbolError.CapacityExceeded p.length (maxCapacity ec))) ∧
      ∀ (title : String) (data : List Nat) (passphrase : String) (salt : Nat)
        (nl : Option String) (sn : Option Bool) (g : Option Bool),
        maxCapacity DEFAULT_EC_LEVEL <
            (encrypt salt data (strBytes passphrase)).length →
        create_pdf title data passphrase salt nl sn none g =
          Except.error (PaperAgeError.PdfCreation
            (SymbolError.message (SymbolError.CapacityExceeded
              (encrypt salt data (strBytes passphrase)).length
              (maxCapacity DEFAULT_EC_LEVEL)))) := by
  have hfail : ∀ (ec : ECLevel) (p : List Nat), maxCapacity ec < p.length →
      encode ec p = Except.error
        (SymbolError.CapacityExceeded p.length (maxCapacity ec)) := by
    intro ec p h
    unfold encode
    rw [findClass_none_of_gt _ _
      (fun x hx => lt_of_le_of_lt (le_foldr_max _ x hx) h)]
  refine ⟨hfail, ?_⟩
  intro title data passphrase salt nl sn g h
  have henc := hfail DEFAULT_EC_LEVEL (encrypt salt data (strBytes passphrase)) h
  have hdoc : Document.new title PageSize.A4 =
      Except.ok ⟨title, PageSize.A4, 210, 297⟩ := rfl
  show (match Document.new title PageSize.A4 with
    | Except.error e => Except.error (PaperAgeError.DocumentInit e)
    | Except.ok pdf =>
      match pdf.create_pdf (g.getD false) (nl.getD "Passphrase:") (sn.getD false)
          (encrypt salt data (strBytes passphrase)) with
      | Except.error e => Except.error (PaperAgeError.PdfCreation e)
      | Except.ok bytes => Except.ok bytes) = _
  rw [hdoc]
  show (match (match encode DEFAULT_EC_LEVEL (encrypt salt data (strBytes passphrase)) with
      | Except.error e => Except.error e.message
      | Except.ok sym => Except.ok (serializeDocument ⟨title, PageSize.A4, 210, 297⟩
          (g.getD false) (nl.getD "Passphrase:") (sn.getD false) sym)) with
    | Except.error e => Except.error (PaperAgeError.PdfCreation e)
    | Except.ok bytes => Except.ok bytes) = _
  rw [henc]

/-- Witness for `decrypt_flipBit` at a concrete envelope, position and
bit. -/
theorem decrypt_flipBit_witness :
    (2 : Nat) < (encrypt 3 [10, 20] [7]).length ∧
      decrypt (flipBit (encrypt 3 [10, 20] [7]) 2 5) [7] = none :=
  ⟨by decide, decrypt_flipBit 3 [10, 20] [7] 2 5 (by decide)⟩

set_option maxRecDepth 8000 in
/-- Witness for `encode_capacity_exceeded`: a 150-byte plaintext yields a
192-element envelope, above the 119-byte maximum capacity at the default
error-correction level. -/
theorem encode_capacity_exceeded_witness :
    maxCapacity DEFAULT_EC_LEVEL <
        (encrypt 0 (List.replicate 150 0) (strBytes "p")).length ∧
      create_pdf "T" (List.replicate 150 0) "p" 0 none none none none =
        Except.error (PaperAgeError.PdfCreation
          (SymbolError.message (SymbolError.CapacityExceeded
            (encrypt 0 (List.replicate 150 0) (strBytes "p")).length
            (maxCapacity DEFAULT_EC_LEVEL)))) :=
  ⟨by decide,
    encode_capacity_exceeded.2 "T" (List.replicate 150 0) "p" 0 none none none
      (by decide)⟩

/-! Theorems about the pipeline `create_pdf` of `src/convenience.rs`. -/

/-- C1 (counterexample): on an unknown page-size identifier the pipeline
does fail with `DocumentInit`, but the encryption stage HAS been invoked:
the source calls `encrypt_plaintext` (line 87) before `Document::new`
(line 90), so page-size validation happens after cryptographic work. -/
theorem create_pdf_unknown_page_encrypts :
    (create_pdfTrace "Doc" [104, 105] "pw" 0 none none (some "tabloid") none).1 =
        Except.error (PaperAgeError.DocumentInit "unknown page size") ∧
      Stage.encrypt ∈
        (create_pdfTrace "Doc" [104, 105] "pw" 0 none none (some "tabloid") none).2 := by
  exact ⟨by decide, by decide⟩

/-- C1 (amended): for every invocation of `create_pdf` with an unknown
page-size identifier, the call fails with `DocumentInit`, but only after the
encryption stage has run: the invocation trace is encryption first, then the
failing document initialization. -/
theorem create_pdf_unknown_page_size (title : String) (data : List Nat)
    (passphrase : String) (salt : Nat) (nl : Option String) (sn : Option Bool)
    (ps : PageSize) (g : Option Bool) (h : pageDimensions ps = none) :
    create_pdfTrace title data passphrase salt nl sn (some ps) g =
      (Except.error (PaperAgeError.DocumentInit "unknown page size"),
        [Stage.encrypt, Stage.docInit]) := by
  have hdoc : Document.new title ps = Except.error "unknown page size" := by
    unfold Document.new
    rw [h]
  show (match Document.new title ps with
    | Except.error e =>
      (Except.error (PaperAgeError.DocumentInit e), [Stage.encrypt, Stage.docInit])
    | Except.ok pdf =>
      match pdf.create_pdf (g.getD false) (nl.getD "Passphrase:") (sn.getD false)
          (encrypt salt data (strBytes passphrase)) with
      | Except.error e =>
        (Except.error (PaperAgeError.PdfCreation e),
          [Stage.encrypt, Stage.docInit, Stage.pdfCreate])
      | Except.ok bytes =>
        (Except.ok bytes, [Stage.encrypt, Stage.docInit, Stage.pdfCreate])) = _
  rw [hdoc]

/-- Witness for `create_pdf_unknown_page_size` at a concrete unknown
identifier. -/
theorem create_pdf_unknown_page_size_witness :
    pageDimensions "tabloid" = none ∧
      create_pdfTrace "Memo" [1, 2, 3] "pw" 5 none none (some "tabloid") none =
        (Except.error (PaperAgeError.DocumentInit "unknown page size"),
          [Stage.encrypt, Stage.docInit]) :=
  ⟨by decide,
    create_pdf_unknown_page_size "Memo" [1, 2, 3] "pw" 5 none none "tabloid"
      none (by decide)⟩

/-- C5: every invocation of `create_pdf` returns either nonempty document
bytes or exactly one of the three tagged error kinds (`Encryption`,
`DocumentInit`, `PdfCreation`), each wrapping a cause message; no failure
path returns document bytes. -/
theorem create_pdf_result_shape (title : String) (data : List Nat)
    (passphrase : String) (salt : Nat) (nl : Option String) (sn : Option Bool)
    (ps : Option PageSize) (g : Option Bool) :
    (∃ bytes, create_pdf title data passphrase salt nl sn ps g =
        Except.ok bytes ∧ bytes ≠ []) ∨
      (∃ msg, create_pdf title data passphrase salt nl sn ps g =
        Except.error (PaperAgeError.Encryption msg)) ∨
      (∃ msg, create_pdf title data passphrase salt nl sn ps g =
        Except.error (PaperAgeError.DocumentInit msg)) ∨
      (∃ msg, create_pdf title data passphrase salt nl sn ps g =
        Except.error (PaperAgeError.PdfCreation msg)) := by
  cases hdoc : Document.new title (ps.getD PageSize.A4) with
  | error e =>
    right; right; left
    refine ⟨e, ?_⟩
    show (match Document.new title (ps.getD PageSize.A4) with
      | Except.error e => Except.error (PaperAgeError.DocumentInit e)
      | Except.ok pdf =>
        match pdf.create_pdf (g.getD false) (nl.getD "Passphrase:") (sn.getD false)
            (encrypt salt data (strBytes passphrase)) with
        | Except.error e => Except.error (PaperAgeError.PdfCreation e)
        | Except.ok bytes => Except.ok bytes) =
      Except.error (PaperAgeError.DocumentInit e)
    rw [hdoc]
  | ok pdf =>
    cases henc : encode DEFAULT_EC_LEVEL (encrypt salt data (strBytes passphrase)) with
    | error er =>
      right; right; right
      refine ⟨er.message, ?_⟩
      show (match Document.new title (ps.getD PageSize.A4) with
        | Except.error e => Except.error (PaperAgeError.DocumentInit e)
        | Except.ok pdf =>
          match pdf.create_pdf (g.getD false) (nl.getD "Passphrase:") (sn.getD false)
              (encrypt salt data (strBytes passphrase)) with
          | Except.error e => Except.error (PaperAgeError.PdfCreation e)
          | Except.ok bytes => Except.ok bytes) =
        Except.error (PaperAgeError.PdfCreation er.message)
      rw [hdoc]
      show (match (match encode DEFAULT_EC_LEVEL (encrypt salt data (strBytes passphrase)) with
          | Except.error e => Except.error e.message
          | Except.ok sym => Except.ok (serializeDocument pdf (g.getD false)
              (nl.getD "Passphrase:") (sn.getD false) sym)) with
        | Except.error e => Except.error (PaperAgeError.PdfCreation e)
        | Except.ok bytes => Except.ok bytes) =
        Except.error (PaperAgeError.PdfCreation er.message)
      rw [henc]
    | ok sym =>
      left
      refine ⟨serializeDocument pdf (g.getD false) (nl.getD "Passphrase:")
        (sn.getD false) sym, ?_, ?_⟩
      · show (match Document.new title (ps.getD PageSize.A4) with
          | Except.error e => Except.error (PaperAgeError.DocumentInit e)
          | Except.ok pdf =>
            match pdf.create_pdf (g.getD false) (nl.getD "Passphrase:") (sn.getD false)
                (encrypt salt data (strBytes passphrase)) with
            | Except.error e => Except.error (PaperAgeError.PdfCreation e)
            | Except.ok bytes => Except.ok bytes) =
          Except.ok (serializeDocument pdf (g.getD false) (nl.getD "Passphrase:")
            (sn.getD false) sym)
        rw [hdoc]
        show (match (match encode DEFAULT_EC_LEVEL (encrypt salt data (strBytes passphrase)) with
            | Except.error e => Except.error e.message
            | Except.ok sym => Except.ok (serializeDocument pdf (g.getD false)
                (nl.getD "Passphrase:") (sn.getD false) sym)) with
          | Except.error e => Except.error (PaperAgeError.PdfCreation e)
          | Except.ok bytes => Except.ok bytes) =
          Except.ok (serializeDocument pdf (g.getD false) (nl.getD "Passphrase:")
            (sn.getD false) sym)
        rw [henc]
      · simp [serializeDocument]

/-- C6: calling `create_pdf` with `None` for every optional configuration
argument behaves exactly as calling it with the notes label `"Passphrase:"`,
skip-notes flag `false`, the default page size A4, and debug-grid flag
`false`. -/
theorem create_pdf_defaults (title : String) (data : List Nat)
    (passphrase : String) (salt : Nat) :
    create_pdf title data passphrase salt none none none none =
      create_pdf title data passphrase salt (some "Passphrase:") (some false)
        (some PageSize.A4) (some false) := rfl

/-- C9: with empty plaintext and default options, `create_pdf` succeeds for
every passphrase, returning nonempty document bytes; encryption of the empty
plaintext still produces the full 4-element header plus a single
authenticated empty-payload chunk (a 5-element envelope). -/
theorem create_pdf_empty_ok (title passphrase : String) (salt : Nat) :
    (∃ bytes, create_pdf title [] passphrase salt none none none none =
        Except.ok bytes ∧ bytes ≠ []) ∧
      (encrypt salt [] (strBytes passphrase)).length = 5 ∧
      chunkify [] = [[]] := by
  refine ⟨⟨serializeDocument ⟨title, PageSize.A4, 210, 297⟩ false "Passphrase:"
      false ⟨0, moduleGrid 0 (encrypt salt [] (strBytes passphrase))⟩,
      rfl, ?_⟩, rfl, rfl⟩
  simp [serializeDocument]

/-- C10: the `Display` rendering of each `PaperAgeError` variant is the
wrapped cause message prefixed by the fixed stage-identifying string. -/
theorem paperAgeError_display (msg : String) :
    (PaperAgeError.Encryption msg).display = "Encryption failed: " ++ msg ∧
      (PaperAgeError.DocumentInit msg).display =
        "Document initialization failed: " ++ msg ∧
      (PaperAgeError.PdfCreation msg).display = "PDF creation failed: " ++ msg :=
  ⟨rfl, rfl, rfl⟩

end PaperAge
